import Mathlib

/-
Verification of the electron-app-settings repository against its
natural-language specification.

The development shallowly embeds the JavaScript sources:
  - lib/Settings.js   : the Settings class (storage, _getStoragePath, set/_set,
                        unset/_unset, get, has and the emitted events)
  - lib/Renderer.js   : the replica-side IPC handlers
  - lib/Main.js       : readSettings / writeSettings (persistence engine)

Modelling conventions:
  - JavaScript values are the inductive type JSValue; objects are association
    lists (insertion order preserved, keys unique in every concrete store).
  - Numbers are embedded as integers (the claims only involve integral data).
  - Mutation is made explicit: every operation returns the updated storage.
  - JS exceptions (strict-mode TypeError / ReferenceError) are Except errors.
    Class bodies are always strict mode in JavaScript, which matters for the
    bare `_storage = {}` statement in _unset and for property creation on
    primitives.
  - The prototype chain is not modelled: reading a property of a primitive
    yields undefined (string index/length properties are modelled only as
    Object.assign sources, where they are own properties).
  - UTF-16 surrogate pairs are not modelled (Lean Char is a unicode scalar).
-/

set_option autoImplicit false

/-- Model of a JavaScript value as stored by the Settings class.
`vUndefined` is the JS value `undefined`; `vMap` is a plain object whose own
enumerable properties are listed in insertion order. -/
inductive JSValue where
  | vUndefined
  | vNull
  | vBool (b : Bool)
  | vNum (n : Int)
  | vStr (s : String)
  | vMap (entries : List (String × JSValue))

/-- Model of the JavaScript test `typeof x === 'object'`: true exactly for
`null` and for objects. -/
def typeofObject : JSValue → Bool
  | .vNull => true
  | .vMap _ => true
  | _ => false

/-- Model of JavaScript truthiness (`if (x)` / `x ? _ : _`). -/
def truthy : JSValue → Bool
  | .vUndefined => false
  | .vNull => false
  | .vBool b => b
  | .vNum n => decide (n ≠ 0)
  | .vStr s => decide (s ≠ "")
  | .vMap _ => true

/-- Model of the loose comparison `key == ""` performed by _getStoragePath.
ToNumber coercion makes `0 == ""` and `false == ""` true; `null`, `undefined`
and plain objects do not loosely equal the empty string. -/
def jsEqEmptyStr : JSValue → Bool
  | .vStr s => decide (s = "")
  | .vNum n => decide (n = 0)
  | .vBool b => !b
  | _ => false

/-- Lookup in an association list (first binding wins, as in a JS object,
whose keys are unique). -/
def alistGet {α : Type} : List (String × α) → String → Option α
  | [], _ => none
  | (k, v) :: rest, key => if k = key then some v else alistGet rest key

/-- Property write on an association list: replace the binding in place if the
key exists, otherwise append (JS property-creation order). -/
def alistSet {α : Type} : List (String × α) → String → α → List (String × α)
  | [], key, val => [(key, val)]
  | (k, v) :: rest, key, val =>
    if k = key then (k, val) :: rest else (k, v) :: alistSet rest key val

/-- Model of the `delete obj[key]` operator. -/
def alistDel {α : Type} : List (String × α) → String → List (String × α)
  | [], _ => []
  | (k, v) :: rest, key => if k = key then rest else (k, v) :: alistDel rest key

/-- Reading the property `k` of a JS value: `undefined` when absent and on
non-objects (prototype chain not modelled); reading from `null`/`undefined`
is a TypeError handled separately by the callers. -/
def rawProp (v : JSValue) (k : String) : JSValue :=
  match v with
  | .vMap es => (alistGet es k).getD .vUndefined
  | _ => .vUndefined

/-- Model of the strict comparison `x === undefined`. -/
def isUndefined : JSValue → Bool
  | .vUndefined => true
  | _ => false

/-- Characters the regex wildcard `.` does not match (line terminators). -/
def dotNoMatch (c : Char) : Bool :=
  c = '\n' || c = '\r' || c.val == 0x2028 || c.val == 0x2029

/-- Model of `key.match(/([^\\\.]|\\.)+/g)` from _getStoragePath, as a single
left-to-right scan.  `cur` is the reversed text of the match in progress.
Unescaped dots separate matches; a backslash escapes the following character
(except a line terminator, which the regex wildcard cannot match); characters
that cannot start or extend a match are skipped, as the regex engine does. -/
def scanAux (cur : List Char) : List Char → List String
  | [] => if cur.isEmpty then [] else [String.mk cur.reverse]
  | c :: rest =>
    if c = '.' then
      if cur.isEmpty then scanAux [] rest
      else String.mk cur.reverse :: scanAux [] rest
    else if c = '\\' then
      match rest with
      | [] => if cur.isEmpty then [] else [String.mk cur.reverse]
      | c2 :: rest2 =>
        if dotNoMatch c2 then
          (if cur.isEmpty then [] else [String.mk cur.reverse]) ++ scanAux [] (c2 :: rest2)
        else scanAux (c2 :: '\\' :: cur) rest2
    else scanAux (c :: cur) rest

/-- The segment list produced by the dot-syntax regex for a key string; the
empty list corresponds to `match` returning `null`. -/
def scanSegs (cs : List Char) : List String := scanAux [] cs

/-- Own enumerable properties of a JS value, as copied by `Object.assign`:
an object's entries, a string's index properties, nothing for the rest. -/
def propsOf : JSValue → List (String × JSValue)
  | .vMap es => es
  | .vStr s => (s.data.enum).map (fun p => (toString p.1, .vStr (String.mk [p.2])))
  | _ => []

/-- Folding the own properties of `src` into an object's entry list, in order
(the second half of `Object.assign`). -/
def assignInto (tgt : List (String × JSValue)) (src : JSValue) : List (String × JSValue) :=
  (propsOf src).foldl (fun acc p => alistSet acc p.1 p.2) tgt

/-- Model of `Object.assign(target, src)`: throws on a `null`/`undefined`
target, merges into an object target, and turns a primitive target into a
wrapper object — modelled by the primitive itself (expando properties on
wrappers are dropped; no claim depends on them). -/
def jsAssign (target src : JSValue) : Except Unit JSValue :=
  match target with
  | .vNull => .error ()
  | .vUndefined => .error ()
  | .vMap es => .ok (.vMap (assignInto es src))
  | t => .ok t

namespace Settings

/-- Result shape of _getStoragePath: the `{obj, element}` pair.  `root` is
`{obj: this._storage, element: ''}`, `nullPair` is `{obj: null, element:
null}`, and `found obj element` is `{obj: last_obj, element: last_name}` with
`obj` the parent node of the final segment. -/
inductive StoragePair where
  | root
  | nullPair
  | found (obj : JSValue) (element : String)

/-- The walking loop of _getStoragePath over a nonempty segment list, at node
`v`.  Returns the (possibly mutated, when `create_path` holds) node together
with the outcome.  At each segment the source checks `obj[hierarchy[i]] ===
undefined`; on a miss it either fails (`create_path` false) or assigns
`obj[hierarchy[i]] = {}` — an assignment that raises TypeError when the
current node is a primitive (class bodies are strict mode), and reading a
property of null/undefined raises TypeError as well. -/
def walkLoop : JSValue → Bool → List String → JSValue × Except Unit StoragePair
  | v, _, [] => (v, .ok .nullPair)
  | .vNull, _, _ :: _ => (.vNull, .error ())
  | .vUndefined, _, _ :: _ => (.vUndefined, .error ())
  | .vMap es, create_path, [s] =>
    if isUndefined ((alistGet es s).getD .vUndefined) then
      if create_path then
        let es2 := alistSet es s (.vMap [])
        (.vMap es2, .ok (.found (.vMap es2) s))
      else (.vMap es, .ok .nullPair)
    else (.vMap es, .ok (.found (.vMap es) s))
  | .vMap es, create_path, s :: s2 :: rest =>
    if isUndefined ((alistGet es s).getD .vUndefined) then
      if create_path then
        let p := walkLoop (.vMap []) create_path (s2 :: rest)
        (.vMap (alistSet es s p.1), p.2)
      else (.vMap es, .ok .nullPair)
    else
      let p := walkLoop ((alistGet es s).getD .vUndefined) create_path (s2 :: rest)
      (.vMap (alistSet es s p.1), p.2)
  | v, create_path, _ :: _ =>
    if create_path then (v, .error ()) else (v, .ok .nullPair)

/-- Model of Settings._getStoragePath(key, create_path): empty-ish key (loose
`key == ""`) yields the root pair; otherwise the key must be a string (other
primitives have no `.match` method: TypeError); a string with no regex match
gives `hierarchy = null`, so `hierarchy.length` raises TypeError. -/
def _getStoragePath (storage key : JSValue) (create_path : Bool) :
    JSValue × Except Unit StoragePair :=
  if jsEqEmptyStr key then (storage, .ok .root)
  else match key with
    | .vStr s =>
      match scanSegs s.data with
      | [] => (storage, .error ())
      | seg :: segs => walkLoop storage create_path (seg :: segs)
    | _ => (storage, .error ())

/-- Model of Settings.get(key): returns the updated storage (unchanged, as
proved below) and the looked-up value; absent paths give JS `null`. -/
def get (storage key : JSValue) : JSValue × Except Unit JSValue :=
  let r := _getStoragePath storage key false
  match r.2 with
  | .error e => (r.1, .error e)
  | .ok .root => (r.1, .ok r.1)
  | .ok .nullPair => (r.1, .ok .vNull)
  | .ok (.found obj element) => (r.1, .ok (rawProp obj element))

/-- Model of Settings.has(key). -/
def has (storage key : JSValue) : JSValue × Except Unit Bool :=
  let r := _getStoragePath storage key false
  match r.2 with
  | .error e => (r.1, .error e)
  | .ok .root => (r.1, .ok true)
  | .ok .nullPair => (r.1, .ok false)
  | .ok (.found _ _) => (r.1, .ok true)

/-- The assignment logic of _set (source lines 146-157) at the parent map
`es` and final key `s`, after the create-walk has ensured `obj[element]` is
defined.  Mirrors: the `!obj[element]` falsy fix, the two Object.assign
directions selected by `is_default`, and the scalar ternary. -/
def setLeaf (es : List (String × JSValue)) (s : String) (value is_default : JSValue) :
    JSValue × Except Unit Unit :=
  if typeofObject value then
    let es1 := if truthy ((alistGet es s).getD .vUndefined) then es
               else alistSet es s (.vMap [])
    let cur := (alistGet es1 s).getD .vUndefined
    if truthy is_default then
      match jsAssign value cur with
      | .ok w => (.vMap (alistSet es1 s w), .ok ())
      | .error e => (.vMap es1, .error e)
    else
      match jsAssign cur value with
      | .ok w => (.vMap (alistSet es1 s w), .ok ())
      | .error e => (.vMap es1, .error e)
  else
    let cur := (alistGet es s).getD .vUndefined
    let nv := if truthy is_default then (if isUndefined cur then value else cur) else value
    (.vMap (alistSet es s nv), .ok ())

/-- The nonempty-path part of _set: the create-walk of
_getStoragePath(key, true) fused with the in-place assignment through the
returned `{obj, element}` reference, made explicit as a write-back. -/
def setWalk (value is_default : JSValue) : JSValue → List String → JSValue × Except Unit Unit
  | v, [] => (v, .ok ())
  | .vNull, _ :: _ => (.vNull, .error ())
  | .vUndefined, _ :: _ => (.vUndefined, .error ())
  | .vMap es, [s] =>
    let es1 := if isUndefined ((alistGet es s).getD .vUndefined) then alistSet es s (.vMap []) else es
    setLeaf es1 s value is_default
  | .vMap es, s :: s2 :: rest =>
    if isUndefined ((alistGet es s).getD .vUndefined) then
      let p := setWalk value is_default (.vMap []) (s2 :: rest)
      (.vMap (alistSet es s p.1), p.2)
    else
      let p := setWalk value is_default ((alistGet es s).getD .vUndefined) (s2 :: rest)
      (.vMap (alistSet es s p.1), p.2)
  | v, _ :: _ => (v, .error ())

/-- The root branch of _set (source lines 140-145): object values are merged
into the storage in the direction selected by `is_default`; a non-object
value is thrown away ("Throw away value if attempting to overwrite storage
with string"). -/
def setRoot (storage value is_default : JSValue) : JSValue × Except Unit Unit :=
  if typeofObject value then
    if truthy is_default then
      match jsAssign value storage with
      | .ok w => (w, .ok ())
      | .error e => (storage, .error e)
    else
      match jsAssign storage value with
      | .ok w => (w, .ok ())
      | .error e => (storage, .error e)
  else (storage, .ok ())

/-- Model of Settings._set(key, value, is_default): performs the object-key
argument shuffle, then either the root merge or the create-walk assignment.
No event is emitted on this path (the source contains no `emit`). -/
def _set (storage key value is_default : JSValue) : JSValue × Except Unit Unit :=
  let a := if typeofObject key then ((.vStr "" : JSValue), key, value)
           else (key, value, is_default)
  match a with
  | (key, value, is_default) =>
    if jsEqEmptyStr key then setRoot storage value is_default
    else match key with
      | .vStr s =>
        match scanSegs s.data with
        | [] => (storage, .error ())
        | seg :: segs => setWalk value is_default storage (seg :: segs)
      | _ => (storage, .error ())

/-- Payload of the `set` event: `{key, value, is_default}`. -/
structure SetEvent where
  key : JSValue
  value : JSValue
  is_default : JSValue

/-- Payload of the `unset` event: `{key}`. -/
structure UnsetEvent where
  key : JSValue

/-- The event emitted by a public `set` call, after the same argument shuffle
the source performs before calling `_set` and `emit`. -/
def setEventOf (key value is_default : JSValue) : SetEvent :=
  if typeofObject key then ⟨.vStr "", key, value⟩ else ⟨key, value, is_default⟩

/-- Model of the public Settings.set: argument shuffle, `_set`, then a single
`emit("set", {key, value, is_default})`.  A JS exception thrown by `_set`
propagates, so nothing is emitted on the error path. -/
def set (storage key value is_default : JSValue) :
    JSValue × Except Unit (List SetEvent) :=
  let r := _set storage key value is_default
  match r.2 with
  | .ok _ => (r.1, .ok [setEventOf key value is_default])
  | .error e => (r.1, .error e)

/-- The nonempty-path part of _unset: the no-create walk of
_getStoragePath(key, false) fused with `delete obj[element]`. -/
def unsetWalk : JSValue → List String → JSValue × Except Unit Bool
  | v, [] => (v, .ok false)
  | .vNull, _ :: _ => (.vNull, .error ())
  | .vUndefined, _ :: _ => (.vUndefined, .error ())
  | .vMap es, [s] =>
    if isUndefined ((alistGet es s).getD .vUndefined) then (.vMap es, .ok false)
    else (.vMap (alistDel es s), .ok true)
  | .vMap es, s :: s2 :: rest =>
    if isUndefined ((alistGet es s).getD .vUndefined) then (.vMap es, .ok false)
    else
      let p := unsetWalk ((alistGet es s).getD .vUndefined) (s2 :: rest)
      (.vMap (alistSet es s p.1), p.2)
  | v, _ :: _ => (v, .ok false)

/-- Model of Settings._unset(key).  On the empty key the source executes the
statement `_storage = {};` — a bare identifier, not `this._storage`; class
bodies are strict mode, so this raises ReferenceError instead of clearing
the store.  The error outcome models that exception. -/
def _unset (storage key : JSValue) : JSValue × Except Unit Bool :=
  if jsEqEmptyStr key then (storage, .error ())
  else match key with
    | .vStr s =>
      match scanSegs s.data with
      | [] => (storage, .error ())
      | seg :: segs => unsetWalk storage (seg :: segs)
    | _ => (storage, .error ())

/-- Model of the public Settings.unset: `_unset`, then `emit("unset", {key})`
exactly when `_unset` returned true. -/
def unset (storage key : JSValue) :
    JSValue × Except Unit (Bool × List UnsetEvent) :=
  let r := _unset storage key
  match r.2 with
  | .ok b => (r.1, .ok (b, if b then [⟨key⟩] else []))
  | .error e => (r.1, .error e)

end Settings

namespace Renderer

/-- Replica-side state: the local Settings storage and `_ready`. -/
structure RepState where
  storage : JSValue
  ready : Bool

/-- Messages a renderer sends to the master over IPC
(`configurator-set` / `configurator-unset`). -/
inductive IpcOut where
  | clientSet (key value is_default : JSValue)
  | clientUnset (key : JSValue)

/-- The `renderer_settings.on('set', ...)` handler of Renderer.js forwards
every emitted `set` event upstream as a `configurator-set` message. -/
def forwardSet (evs : List Settings.SetEvent) : List IpcOut :=
  evs.map (fun e => .clientSet e.key e.value e.is_default)

/-- The `renderer_settings.on('unset', ...)` handler of Renderer.js. -/
def forwardUnset (evs : List Settings.UnsetEvent) : List IpcOut :=
  evs.map (fun e => .clientUnset e.key)

/-- The internal mutation path `_set` contains no `emit` call, so it
contributes an empty event list to the forwarding handlers. -/
def internalSetEvents : List Settings.SetEvent := []

/-- Events contributed by `_unset` (none: no `emit` on the internal path). -/
def internalUnsetEvents : List Settings.UnsetEvent := []

/-- Handler for `configurator-master-set`: sets `_ready = true`, then applies
the change through `_set`; whatever that path emits (nothing) is forwarded. -/
def onMasterSet (st : RepState) (key value is_default : JSValue) :
    RepState × List IpcOut :=
  let r := Settings._set st.storage key value is_default
  (⟨r.1, true⟩, forwardSet internalSetEvents)

/-- Handler for `configurator-master-unset`: applies the change through
`_unset`; whatever that path emits (nothing) is forwarded. -/
def onMasterUnset (st : RepState) (key : JSValue) : RepState × List IpcOut :=
  let r := Settings._unset st.storage key
  (⟨r.1, st.ready⟩, forwardUnset internalUnsetEvents)

end Renderer

namespace Main

/-- The slice of the filesystem writeSettings touches: the primary settings
file and the backup directory (hour key to file content). -/
structure FileSys where
  primary : Option String
  backups : List (String × String)

/-- One completed run of writeSettings' I/O (Main.js lines 88-106), for the
current hour key and the serialized storage `content`.  `fs.access(backup_path,
F_OK, cb)` passes an error to `cb` exactly when the backup file does NOT
exist; in that branch the source writes the primary file directly, and only
in the no-error branch (backup already present) does it rename the primary
onto the backup path before writing.  A failing rename (no primary file) is
ignored by the source callback. -/
def writeSettingsFS (fs : FileSys) (hour content : String) : FileSys :=
  match alistGet fs.backups hour with
  | none => { fs with primary := some content }
  | some _ =>
    match fs.primary with
    | some old => { primary := some content, backups := alistSet fs.backups hour old }
    | none => { fs with primary := some content }

/-- Instrumented single-flight state of writeSettings: the `isWriting` flag
and a count of primary-file writes currently in flight. -/
structure WriterState where
  isWriting : Bool
  inFlight : Nat

/-- Observable events of the write guard: a flush request
(`writeSettings(cb)` invoked) and the completion callback of `fs.writeFile`,
which the source runs — clearing the flag — whether or not the write errored
(the callback ignores its error argument). -/
inductive WriterEvent where
  | request
  | complete (err : Bool)

/-- Transition of the single-flight guard: a request arriving while
`isWriting` is a no-op (`if (isWriting) return`); otherwise the flag is set
and a write starts; a completion ends the write and clears the flag. -/
def writerStep (s : WriterState) : WriterEvent → WriterState
  | .request => if s.isWriting then s else { isWriting := true, inFlight := s.inFlight + 1 }
  | .complete _ => { isWriting := false, inFlight := s.inFlight - 1 }

/-- Initial guard state (`let isWriting = false`). -/
def writerInit : WriterState := ⟨false, 0⟩

/-- The guard state after a sequence of events. -/
def writerRun (evs : List WriterEvent) : WriterState :=
  evs.foldl writerStep writerInit

/-- Outcome of reading-and-parsing one settings or backup file: readable with
parsed content, absent (ENOENT), or failed (unreadable or JSON.parse threw). -/
inductive LoadOutcome where
  | ok (v : JSValue)
  | notFound
  | failed

/-- Master-side Settings state used by readSettings. -/
structure MasterState where
  storage : JSValue
  ready : Bool

/-- The statements `main_settings._set(JSON.parse(data)); main_settings._ready
= true;` applied to a parsed value: `_ready` is reached only when `_set` does
not throw. -/
def applyLoad (st : MasterState) (v : JSValue) : MasterState × Bool :=
  let r := Settings._set st.storage v .vUndefined .vUndefined
  match r.2 with
  | .ok _ => (⟨r.1, true⟩, true)
  | .error _ => (⟨r.1, st.ready⟩, false)

/-- The backup-recovery loop of readSettings (Main.js lines 63-77): backups
are tried newest first (the argument list is already in descending filename
order); a throwing `_set` is caught and the loop moves on to the next file;
when
every backup fails the source sets the store to `{}` and marks ready. -/
def tryBackups (st : MasterState) : List LoadOutcome → MasterState
  | [] =>
    let r := Settings._set st.storage (.vMap []) .vUndefined .vUndefined
    ⟨r.1, true⟩
  | .ok v :: rest =>
    match applyLoad st v with
    | (st2, true) => st2
    | (st2, false) => tryBackups st2 rest
  | _ :: rest => tryBackups st rest

/-- Model of readSettings (Main.js lines 55-80): on a readable primary file,
parse and apply it; on ENOENT the catch body is skipped entirely — nothing
happens, in particular `_ready` is not set; on any other failure run backup
recovery. -/
def readSettingsRun (st : MasterState) (primary : LoadOutcome)
    (backupsDesc : List LoadOutcome) : MasterState :=
  match primary with
  | .ok v =>
    match applyLoad st v with
    | (st2, true) => st2
    | (st2, false) => tryBackups st2 backupsDesc
  | .notFound => st
  | .failed => tryBackups st backupsDesc

end Main

/-- Specification-level reader: the value reached from `v` by descending
through map entries along `segs` (used to state merge and frame properties;
it is not part of the source). -/
def getAtSegs : JSValue → List String → Option JSValue
  | v, [] => some v
  | .vMap es, s :: rest =>
    match alistGet es s with
    | some w => getAtSegs w rest
    | none => none
  | _, _ :: _ => none

/-- Specification-level updater: replace the value reached along `segs`
(used to state what setWalk computes). -/
def updateAtSegs : JSValue → List String → JSValue → JSValue
  | _, [], w => w
  | .vMap es, s :: rest, w =>
    .vMap (alistSet es s (updateAtSegs ((alistGet es s).getD .vUndefined) rest w))
  | v, _ :: _, _ => v

/-- Discriminator for MAP values, used to state which values are leaves. -/
def isMapV : JSValue → Bool
  | .vMap _ => true
  | _ => false

/-- The value the _set leaf logic stores over an existing binding V (with V
not undefined, as guaranteed by the create-walk): the `!obj[element]` falsy
fix followed by the direction-selected Object.assign for object values, or
the ternary for scalar values; the error is the TypeError thrown by
`Object.assign(null, _)` when the incoming value is null and is_default is
truthy. -/
def leafNewValue (V value is_default : JSValue) : Except Unit JSValue :=
  if typeofObject value then
    let V1 := if truthy V then V else .vMap []
    if truthy is_default then jsAssign value V1 else jsAssign V1 value
  else .ok (if truthy is_default then (if isUndefined V then value else V) else value)

/-- Well-formedness of the character list of one dot-syntax segment: nonempty
issues aside, every character is either an ordinary character (not a dot, not
a backslash) or a backslash escaping a following non-line-terminator
character; such a list is exactly one maximal regex match. -/
def segOK : List Char → Bool
  | [] => true
  | c :: rest =>
    if c = '\\' then
      match rest with
      | [] => false
      | c2 :: rest2 => !dotNoMatch c2 && segOK rest2
    else if c = '.' then false
    else segOK rest

/-- Modelled from the spec: re-escaping one segment for the dot syntax — "a
literal dot inside a segment is written \\." — leaving already-escaped
characters alone.  The repository has no escape/join function of its own;
this is the spec's escape applied to one segment. -/
def escapeSegChars : List Char → List Char
  | [] => []
  | c :: rest =>
    if c = '\\' then
      match rest with
      | [] => ['\\']
      | c2 :: rest2 => '\\' :: c2 :: escapeSegChars rest2
    else if c = '.' then '\\' :: '.' :: escapeSegChars rest
    else c :: escapeSegChars rest

/-- Modelled from the spec: the `escape` of the round-trip law
`escape(split(P)) == P` — each segment re-escaped and the results joined with
dots. -/
def escapeJoin : List String → String
  | [] => ""
  | [s] => String.mk (escapeSegChars s.data)
  | s :: s2 :: rest => String.mk (escapeSegChars s.data) ++ "." ++ escapeJoin (s2 :: rest)

theorem alistGet_set_self {α : Type} (es : List (String × α)) (k : String) (v : α) :
    alistGet (alistSet es k v) k = some v := by
  induction es with
  | nil => simp [alistGet, alistSet]
  | cons p rest ih =>
    obtain ⟨k0, v0⟩ := p
    by_cases h : k0 = k
    · simp [alistGet, alistSet, h]
    · simp [alistGet, alistSet, h, ih]

theorem alistGet_set_ne {α : Type} (es : List (String × α)) (k k' : String) (v : α)
    (h : k ≠ k') : alistGet (alistSet es k v) k' = alistGet es k' := by
  induction es with
  | nil => simp [alistGet, alistSet, h]
  | cons p rest ih =>
    obtain ⟨k0, v0⟩ := p
    by_cases h0 : k0 = k
    · subst h0
      simp [alistGet, alistSet, h]
    · simp [alistGet, alistSet, h0, ih]

theorem alistSet_set_same {α : Type} (es : List (String × α)) (k : String) (a b : α) :
    alistSet (alistSet es k a) k b = alistSet es k b := by
  induction es with
  | nil => simp [alistSet]
  | cons p rest ih =>
    obtain ⟨k0, v0⟩ := p
    by_cases h : k0 = k
    · simp [alistSet, h]
    · simp [alistSet, h, ih]

theorem alistSet_get_self {α : Type} (es : List (String × α)) (k : String) (c : α)
    (h : alistGet es k = some c) : alistSet es k c = es := by
  induction es with
  | nil => simp [alistGet] at h
  | cons p rest ih =>
    obtain ⟨k0, v0⟩ := p
    by_cases h0 : k0 = k
    · subst h0
      simp [alistGet] at h
      simp [alistSet, h]
    · simp [alistGet, h0] at h
      simp [alistSet, h0, ih h]

namespace Settings

theorem walkLoop_noCreate : ∀ (segs : List String) (v : JSValue),
    (walkLoop v false segs).1 = v := by
  intro segs
  induction segs with
  | nil => intro v; cases v <;> rfl
  | cons s rest ih =>
    intro v
    cases v with
    | vUndefined => cases rest <;> rfl
    | vNull => cases rest <;> rfl
    | vBool b => cases rest <;> rfl
    | vNum n => cases rest <;> rfl
    | vStr t => cases rest <;> rfl
    | vMap es =>
      cases rest with
      | nil =>
        by_cases h : isUndefined ((alistGet es s).getD .vUndefined) = true
        · simp [walkLoop, h]
        · simp [walkLoop, h]
      | cons s2 rest2 =>
        by_cases h : isUndefined ((alistGet es s).getD .vUndefined) = true
        · simp [walkLoop, h]
        · have hget : ∃ c, alistGet es s = some c := by
            cases hg : alistGet es s with
            | none => rw [hg] at h; simp [isUndefined] at h
            | some c => exact ⟨c, rfl⟩
          obtain ⟨c, hc⟩ := hget
          simp only [walkLoop, hc, Option.getD_some]
          rw [if_neg (by rw [hc] at h; simpa using h)]
          simp only []
          rw [ih c, alistSet_get_self es s c hc]

theorem getStoragePath_noCreate : ∀ (storage key : JSValue),
    (Settings._getStoragePath storage key false).1 = storage := by
  intro storage key
  unfold Settings._getStoragePath
  by_cases h : jsEqEmptyStr key = true
  · simp [h]
  · simp only [h]
    cases key with
    | vStr s =>
      simp only [Bool.false_eq_true, if_false]
      cases hs : scanSegs s.data with
      | nil => rfl
      | cons seg segs => exact walkLoop_noCreate (seg :: segs) storage
    | vUndefined => simp
    | vNull => simp
    | vBool b => simp
    | vNum n => simp
    | vMap es => simp

end Settings

theorem set_fst_eq_setInternal_fst (storage key value d : JSValue) :
    (Settings.set storage key value d).1 = (Settings._set storage key value d).1 := by
  unfold Settings.set
  cases h : (Settings._set storage key value d).2 <;> simp [h]

theorem unset_fst_eq_unsetInternal_fst (storage key : JSValue) :
    (Settings.unset storage key).1 = (Settings._unset storage key).1 := by
  unfold Settings.unset
  cases h : (Settings._unset storage key).2 <;> simp [h]

/-- C10: for every key and every store state, `get` and `has` leave the store
unchanged — resolution with `create_path = false` never inserts intermediate
maps, so the read operations are side-effect-free on the storage. -/
theorem claim_C10_get_has_pure (storage key : JSValue) :
    (Settings.get storage key).1 = storage ∧ (Settings.has storage key).1 = storage := by
  constructor
  · unfold Settings.get
    cases h : (Settings._getStoragePath storage key false).2 with
    | error e => simpa [h] using Settings.getStoragePath_noCreate storage key
    | ok p => cases p <;> simpa [h] using Settings.getStoragePath_noCreate storage key
  · unfold Settings.has
    cases h : (Settings._getStoragePath storage key false).2 with
    | error e => simpa [h] using Settings.getStoragePath_noCreate storage key
    | ok p => cases p <;> simpa [h] using Settings.getStoragePath_noCreate storage key

/-- C1: the claim says `unset("")` returns true and clears the store to an
empty MAP.  In the source, `_unset`'s empty-path branch executes the bare
statement `_storage = {};` (missing `this.`); class bodies are strict mode,
so the call raises ReferenceError — it neither returns true, nor clears the
storage, nor emits `unset`.  This theorem evaluates the model: for every
store, `unset("")` is the error outcome with the storage unchanged. -/
theorem claim_C1_unset_empty_raises (storage : JSValue) :
    Settings.unset storage (.vStr "") = (storage, .error ()) := rfl

/-- C2: the claim says the primary file is renamed to the hour backup when no
backup for that hour exists yet.  The source has the `fs.access` test
inverted: when the backup is missing (access errors) it writes the primary
directly and never creates a backup; when the backup already exists it
renames the primary over it on every write.  Both behaviours are evaluated
here: a fresh hour gains no backup record, and an existing record is
overwritten rather than retained. -/
theorem claim_C2_backup_logic_inverted :
    Main.writeSettingsFS ⟨some "old", []⟩ "2021-01-01T05" "new"
      = ⟨some "new", []⟩ ∧
    Main.writeSettingsFS ⟨some "old", [("2021-01-01T05", "prior")]⟩ "2021-01-01T05" "new"
      = ⟨some "new", [("2021-01-01T05", "old")]⟩ := ⟨rfl, rfl⟩

/-- C5: the claim says `_ready` is true after Loading completes even when the
primary settings file does not exist.  In the source the catch handler only
acts when `e.code !== 'ENOENT'`, so on a missing file nothing runs and
`_ready` stays false (every other terminal path of readSettings does set it).
The theorem evaluates the model: an ENOENT load leaves the state — including
the readiness flag — exactly as it was, while a successful load sets it. -/
theorem claim_C5_enoent_leaves_not_ready :
    (∀ (st : Main.MasterState) (backups : List Main.LoadOutcome),
        Main.readSettingsRun st .notFound backups = st) ∧
    (Main.readSettingsRun ⟨.vMap [], false⟩ .notFound []).ready = false ∧
    (Main.readSettingsRun ⟨.vMap [], false⟩ (.ok (.vMap [("a", .vNum 1)])) []).ready = true := by
  refine ⟨fun st backups => rfl, rfl, rfl⟩

/-- C6: applying a received masterSet/masterUnset through the internal
mutation path changes the replica's storage exactly as the public set/unset
would, but forwards no clientSet/clientUnset upstream (the internal path
emits no events, and Renderer.js only forwards emitted events). -/
theorem claim_C6_internal_path_silent (st : Renderer.RepState) (key value d : JSValue) :
    (Renderer.onMasterSet st key value d).2 = [] ∧
    (Renderer.onMasterSet st key value d).1.storage = (Settings.set st.storage key value d).1 ∧
    (Renderer.onMasterUnset st key).2 = [] ∧
    (Renderer.onMasterUnset st key).1.storage = (Settings.unset st.storage key).1 := by
  refine ⟨rfl, ?_, rfl, ?_⟩
  · rw [set_fst_eq_setInternal_fst]
    rfl
  · rw [unset_fst_eq_unsetInternal_fst]
    rfl

theorem writerRun_invariant : ∀ (evs : List Main.WriterEvent) (s : Main.WriterState),
    s.inFlight ≤ 1 → (s.isWriting = false → s.inFlight = 0) →
    (evs.foldl Main.writerStep s).inFlight ≤ 1 := by
  intro evs
  induction evs with
  | nil => intro s h1 _; simpa using h1
  | cons e rest ih =>
    intro s h1 h2
    simp only [List.foldl_cons]
    cases e with
    | request =>
      by_cases hw : s.isWriting
      · exact ih _ (by simpa [Main.writerStep, hw] using h1)
          (by simp [Main.writerStep, hw])
      · have h0 : s.inFlight = 0 := h2 (by simpa using hw)
        exact ih _ (by simp [Main.writerStep, hw, h0]) (by simp [Main.writerStep, hw])
    | complete err =>
      exact ih _ (by simp [Main.writerStep]; omega) (by simp [Main.writerStep]; omega)

/-- C7: the single-flight guard of writeSettings.  A flush request arriving
while a write is in flight is a no-op, at most one primary-file write is ever
in flight along any event sequence, and the completion callback clears the
flag regardless of a write error, so later flushes can proceed. -/
theorem claim_C7_single_flight :
    (∀ evs : List Main.WriterEvent, (Main.writerRun evs).inFlight ≤ 1) ∧
    (∀ s : Main.WriterState, s.isWriting = true → Main.writerStep s .request = s) ∧
    (∀ (s : Main.WriterState) (err : Bool),
        (Main.writerStep s (.complete err)).isWriting = false) := by
  refine ⟨?_, ?_, ?_⟩
  · intro evs
    exact writerRun_invariant evs Main.writerInit (by simp [Main.writerInit]) (by simp [Main.writerInit])
  · intro s hs
    simp [Main.writerStep, hs]
  · intro s err
    rfl

/-- Witness for C7: the guard theorem applied at a concrete state in which a
write is in flight. -/
theorem claim_C7_single_flight_witness :
    Main.writerStep ⟨true, 1⟩ .request = ⟨true, 1⟩ :=
  claim_C7_single_flight.2.1 ⟨true, 1⟩ rfl

theorem get_null_of_has_false (storage key : JSValue)
    (h : (Settings.has storage key).2 = .ok false) :
    (Settings.get storage key).2 = .ok .vNull := by
  cases hp : (Settings._getStoragePath storage key false).2 with
  | error e => simp [Settings.has, hp] at h
  | ok p =>
    cases p with
    | root => simp [Settings.has, hp] at h
    | nullPair => simp [Settings.get, hp]
    | found obj e => simp [Settings.has, hp] at h

theorem get_null_of_stored_null (storage key obj : JSValue) (e : String)
    (h : (Settings._getStoragePath storage key false).2 = .ok (.found obj e))
    (hv : rawProp obj e = .vNull) :
    (Settings.get storage key).2 = .ok .vNull := by
  simp [Settings.get, h, hv]

theorem has_true_of_stored_null (storage key obj : JSValue) (e : String)
    (h : (Settings._getStoragePath storage key false).2 = .ok (.found obj e)) :
    (Settings.has storage key).2 = .ok true := by
  simp [Settings.has, h]

/-- C4 counterexample: the claim says absence and a stored null are
distinguishable through `get`.  In the store `{a: null}`, `get("a")` (a
present key holding null) and `get("b")` (an absent key) return the very same
outcome, JS `null`, even though `has` tells the two keys apart — so `get`
does not distinguish them. -/
theorem claim_C4_counterexample :
    (Settings.get (.vMap [("a", .vNull)]) (.vStr "a")).2
        = (Settings.get (.vMap [("a", .vNull)]) (.vStr "b")).2 ∧
    (Settings.has (.vMap [("a", .vNull)]) (.vStr "a")).2 = .ok true ∧
    (Settings.has (.vMap [("a", .vNull)]) (.vStr "b")).2 = .ok false := ⟨rfl, rfl, rfl⟩

/-- C4, amended: absence and a stored null are NOT distinguishable through
`get` — an absent path and a path holding null both yield JS `null` — while
`has` does distinguish them (false for an absent path, true for a path that
resolves, even to null). -/
theorem claim_C4_amended (storage key obj : JSValue) (e : String) :
    ((Settings.has storage key).2 = .ok false →
        (Settings.get storage key).2 = .ok .vNull) ∧
    ((Settings._getStoragePath storage key false).2 = .ok (.found obj e) →
      rawProp obj e = .vNull →
        (Settings.get storage key).2 = .ok .vNull ∧
        (Settings.has storage key).2 = .ok true) := by
  refine ⟨fun h => get_null_of_has_false storage key h, fun h hv => ?_⟩
  exact ⟨get_null_of_stored_null storage key obj e h hv,
         has_true_of_stored_null storage key obj e h⟩

/-- Witness for the amended C4 at the concrete store `{a: null}`: key "b" is
absent and gets null; key "a" resolves with a stored null, gets null, and
`has` reports true. -/
theorem claim_C4_amended_witness :
    (Settings.get (.vMap [("a", .vNull)]) (.vStr "b")).2 = .ok .vNull ∧
    (Settings.get (.vMap [("a", .vNull)]) (.vStr "a")).2 = .ok .vNull ∧
    (Settings.has (.vMap [("a", .vNull)]) (.vStr "a")).2 = .ok true := by
  refine ⟨(claim_C4_amended (.vMap [("a", .vNull)]) (.vStr "b") (.vMap [("a", .vNull)]) "b").1 rfl,
          ?_, ?_⟩
  · exact ((claim_C4_amended (.vMap [("a", .vNull)]) (.vStr "a")
      (.vMap [("a", .vNull)]) "a").2 rfl rfl).1
  · exact ((claim_C4_amended (.vMap [("a", .vNull)]) (.vStr "a")
      (.vMap [("a", .vNull)]) "a").2 rfl rfl).2

/-- C8 counterexample: the claim says every call to the public `set` emits
exactly one `set` event.  The call `set(".", 1)` makes the dot-syntax regex
match return `null`, so `hierarchy.length` inside `_getStoragePath` raises a
TypeError that propagates out of `_set` before the `emit` line is reached: no
event is emitted by this call. -/
theorem claim_C8_counterexample :
    Settings.set (.vMap []) (.vStr ".") (.vNum 1) (.vBool false)
      = (.vMap [], .error ()) := rfl

/-- C8, amended: every call to the public `set` whose internal mutation does
not throw emits exactly one `set` event carrying `{key, value, is_default}`
(the post-shuffle arguments), after the mutation has been applied, even when
the mutation is a no-op; in particular a `set` with an empty path and a
non-MAP value leaves the storage unchanged — rejected as a no-op, not an
error — and still emits the event. -/
theorem claim_C8_amended (storage key value d : JSValue) :
    (∀ (r : JSValue) (evs : List Settings.SetEvent),
        Settings.set storage key value d = (r, .ok evs) →
          evs = [Settings.setEventOf key value d]) ∧
    (Settings.set storage key value d).1 = (Settings._set storage key value d).1 ∧
    (typeofObject value = false →
        Settings.set storage (.vStr "") value d
          = (storage, .ok [⟨.vStr "", value, d⟩])) := by
  refine ⟨?_, set_fst_eq_setInternal_fst storage key value d, ?_⟩
  · intro r evs h
    unfold Settings.set at h
    cases hi : (Settings._set storage key value d).2 with
    | error e => simp [hi] at h
    | ok u => simp [hi] at h; exact h.2.symm
  · intro hv
    have hroot : Settings._set storage (.vStr "") value d = (storage, .ok ()) := by
      cases value with
      | vNull => simp [typeofObject] at hv
      | vMap es => simp [typeofObject] at hv
      | vUndefined => rfl
      | vBool b => rfl
      | vNum n => rfl
      | vStr s => rfl
    simp [Settings.set, hroot, Settings.setEventOf, typeofObject]

/-- Witness for the amended C8: a successful call emits exactly the one
event, and a root-level `set` with a string value is a no-op that still
emits. -/
theorem claim_C8_amended_witness :
    ([⟨.vStr "k", .vNum 7, .vBool false⟩] : List Settings.SetEvent)
        = [Settings.setEventOf (.vStr "k") (.vNum 7) (.vBool false)] ∧
    Settings.set (.vMap [("a", .vNum 1)]) (.vStr "") (.vStr "zap") .vUndefined
      = (.vMap [("a", .vNum 1)], .ok [⟨.vStr "", .vStr "zap", .vUndefined⟩]) := by
  constructor
  · exact (claim_C8_amended (.vMap []) (.vStr "k") (.vNum 7) (.vBool false)).1
      (.vMap [("k", .vNum 7)]) [⟨.vStr "k", .vNum 7, .vBool false⟩] rfl
  · exact (claim_C8_amended (.vMap [("a", .vNum 1)]) (.vStr "") (.vStr "zap") .vUndefined).2.2 rfl

theorem escapeSegChars_id_bounded : ∀ (n : Nat) (l : List Char), l.length ≤ n →
    segOK l = true → escapeSegChars l = l := by
  intro n
  induction n with
  | zero =>
    intro l hl _
    rw [List.length_eq_zero.mp (Nat.le_zero.mp hl)]
    rfl
  | succ n ih =>
    intro l hl hok
    cases l with
    | nil => rfl
    | cons c rest =>
      by_cases hbs : c = '\\'
      · subst hbs
        cases rest with
        | nil => simp [segOK] at hok
        | cons c2 rest2 =>
          simp only [segOK, if_pos rfl, if_true, Bool.and_eq_true] at hok
          have hlen : rest2.length ≤ n := by
            simp only [List.length_cons] at hl
            omega
          simp only [escapeSegChars, if_pos rfl, if_true]
          rw [ih rest2 hlen hok.2]
      · by_cases hdot : c = '.'
        · subst hdot
          rw [segOK.eq_def] at hok
          simp [hbs] at hok
        · rw [segOK.eq_def] at hok
          simp only [if_neg hbs, if_neg hdot] at hok
          have hlen : rest.length ≤ n := by
            simp only [List.length_cons] at hl
            omega
          have hrec := ih rest hlen hok
          rw [escapeSegChars.eq_def]
          simp [hbs, hdot, hrec]

theorem escapeSegChars_id (l : List Char) (hok : segOK l = true) :
    escapeSegChars l = l :=
  escapeSegChars_id_bounded l.length l le_rfl hok

theorem scanAux_seg_bounded : ∀ (n : Nat) (l : List Char), l.length ≤ n →
    segOK l = true → ∀ (cur rest : List Char),
    scanAux cur (l ++ rest) = scanAux (l.reverse ++ cur) rest := by
  intro n
  induction n with
  | zero =>
    intro l hl _ cur rest
    rw [List.length_eq_zero.mp (Nat.le_zero.mp hl)]
    rfl
  | succ n ih =>
    intro l hl hok cur rest
    cases l with
    | nil => rfl
    | cons c tail =>
      by_cases hbs : c = '\\'
      · subst hbs
        cases tail with
        | nil => simp [segOK] at hok
        | cons c2 tail2 =>
          simp only [segOK, if_pos rfl, if_true, Bool.and_eq_true, Bool.not_eq_true'] at hok
          have hlen : tail2.length ≤ n := by
            simp only [List.length_cons] at hl
            omega
          have hstep : ('\\' :: c2 :: tail2) ++ rest = '\\' :: c2 :: (tail2 ++ rest) := rfl
          rw [hstep]
          have hunf : scanAux cur ('\\' :: c2 :: (tail2 ++ rest))
              = scanAux (c2 :: '\\' :: cur) (tail2 ++ rest) := by
            simp [scanAux, hok.1]
          rw [hunf, ih tail2 hlen hok.2 (c2 :: '\\' :: cur) rest]
          simp [List.append_assoc]
      · by_cases hdot : c = '.'
        · subst hdot
          rw [segOK.eq_def] at hok
          simp [hbs] at hok
        · rw [segOK.eq_def] at hok
          simp only [if_neg hbs, if_neg hdot] at hok
          have hlen : tail.length ≤ n := by
            simp only [List.length_cons] at hl
            omega
          have hstep : (c :: tail) ++ rest = c :: (tail ++ rest) := rfl
          rw [hstep]
          have hunf : scanAux cur (c :: (tail ++ rest))
              = scanAux (c :: cur) (tail ++ rest) := by
            conv_lhs => rw [scanAux.eq_def]
            simp [hbs, hdot]
          rw [hunf, ih tail hlen hok (c :: cur) rest]
          simp [List.append_assoc]

theorem scanAux_seg (l : List Char) (hok : segOK l = true) (cur rest : List Char) :
    scanAux cur (l ++ rest) = scanAux (l.reverse ++ cur) rest :=
  scanAux_seg_bounded l.length l le_rfl hok cur rest

theorem scanSegs_escapeJoin : ∀ (ss : List String),
    (∀ s ∈ ss, s.data ≠ [] ∧ segOK s.data = true) →
    scanSegs (escapeJoin ss).data = ss := by
  intro ss
  induction ss with
  | nil => intro _; rfl
  | cons s tail ih =>
    intro hall
    have hs := hall s (by simp)
    have hrevne : (s.data.reverse).isEmpty = false := by
      cases hd : s.data with
      | nil => exact absurd hd hs.1
      | cons c rest => simp [hd]
    cases tail with
    | nil =>
      have hdata : (escapeJoin [s]).data = s.data ++ [] := by
        show (String.mk (escapeSegChars s.data)).data = s.data ++ []
        simp [escapeSegChars_id s.data hs.2]
      unfold scanSegs
      rw [hdata, scanAux_seg s.data hs.2 [] []]
      simp only [List.append_nil]
      have : scanAux s.data.reverse [] = [String.mk (s.data.reverse.reverse)] := by
        conv_lhs => rw [scanAux.eq_def]
        simp [hrevne]
      rw [this, List.reverse_reverse]
    | cons s2 tail2 =>
      have hdata : (escapeJoin (s :: s2 :: tail2)).data
          = s.data ++ ('.' :: (escapeJoin (s2 :: tail2)).data) := by
        show ((String.mk (escapeSegChars s.data) ++ "." ++ escapeJoin (s2 :: tail2))).data = _
        rw [String.data_append, String.data_append]
        simp [escapeSegChars_id s.data hs.2]
      unfold scanSegs
      rw [hdata, scanAux_seg s.data hs.2 [] ('.' :: (escapeJoin (s2 :: tail2)).data)]
      simp only [List.append_nil]
      have hstep : scanAux s.data.reverse ('.' :: (escapeJoin (s2 :: tail2)).data)
          = String.mk (s.data.reverse.reverse) :: scanAux [] (escapeJoin (s2 :: tail2)).data := by
        conv_lhs => rw [scanAux.eq_def]
        simp [hrevne]
      rw [hstep, List.reverse_reverse]
      have htail : scanAux [] (escapeJoin (s2 :: tail2)).data = s2 :: tail2 :=
        ih (fun x hx => hall x (by simp [hx]))
      rw [htail]

/-- C9 counterexample: the claim asserts `escape(split(P)) == P` for every
path string without unescaped backslashes.  The backslash-free string
"a..b" splits into segments "a" and "b" (the regex skips the empty segment
between consecutive dots), so re-joining yields "a.b", not "a..b". -/
theorem claim_C9_counterexample :
    escapeJoin (scanSegs ("a..b").data) = "a.b" ∧ ("a.b" : String) ≠ "a..b" := by
  refine ⟨rfl, by decide⟩

/-- C9, amended: the round-trip law holds for every path that is the
dot-join of nonempty well-formed segments (no unescaped dot, no trailing
backslash, no escaped line terminator in a segment) — equivalently, for
paths without unescaped backslashes and without empty segments.  For such a
path P = escapeJoin ss, splitting and re-escaping-and-joining returns P. -/
theorem claim_C9_amended (ss : List String)
    (h : ∀ s ∈ ss, s.data ≠ [] ∧ segOK s.data = true) :
    escapeJoin (scanSegs (escapeJoin ss).data) = escapeJoin ss := by
  rw [scanSegs_escapeJoin ss h]

/-- Witness for the amended C9 at the concrete segment list ["a", "b\\.c"],
whose join is the path "a.b\\.c" containing an escaped dot. -/
theorem claim_C9_amended_witness :
    escapeJoin (scanSegs (escapeJoin ["a", "b\\.c"]).data) = escapeJoin ["a", "b\\.c"] :=
  claim_C9_amended ["a", "b\\.c"] (by decide)

theorem alistGet_foldSet_not_mem (src : List (String × JSValue))
    (tgt : List (String × JSValue)) (k : String) (h : ∀ p ∈ src, p.1 ≠ k) :
    alistGet (src.foldl (fun acc p => alistSet acc p.1 p.2) tgt) k = alistGet tgt k := by
  induction src generalizing tgt with
  | nil => rfl
  | cons p rest ih =>
    simp only [List.foldl_cons]
    rw [ih (alistSet tgt p.1 p.2) (fun q hq => h q (by simp [hq]))]
    exact alistGet_set_ne tgt p.1 k p.2 (h p (by simp))

theorem alistGet_assignInto_of_src (src : List (String × JSValue)) (k : String)
    (v : JSValue) (hnd : (src.map Prod.fst).Nodup) (hsome : alistGet src k = some v) :
    ∀ tgt, alistGet (assignInto tgt (.vMap src)) k = some v := by
  induction src with
  | nil => simp [alistGet] at hsome
  | cons p rest ih =>
    intro tgt
    obtain ⟨k0, v0⟩ := p
    simp only [List.map_cons, List.nodup_cons] at hnd
    show alistGet (((k0, v0) :: rest).foldl (fun acc q => alistSet acc q.1 q.2) tgt) k = some v
    simp only [List.foldl_cons]
    by_cases hk : k0 = k
    · subst hk
      have hv : v0 = v := by simpa [alistGet] using hsome
      rw [alistGet_foldSet_not_mem rest (alistSet tgt k0 v0) k0
        (fun q hq hcontra => hnd.1 (by rw [← hcontra]; exact List.mem_map_of_mem Prod.fst hq))]
      rw [alistGet_set_self, hv]
    · simp only [alistGet, if_neg hk] at hsome
      show alistGet (assignInto (alistSet tgt k0 v0) (.vMap rest)) k = some v
      exact ih hnd.2 hsome (alistSet tgt k0 v0)

theorem alistGet_assignInto_of_none (src tgt : List (String × JSValue)) (k : String)
    (hnone : alistGet src k = none) :
    alistGet (assignInto tgt (.vMap src)) k = alistGet tgt k := by
  apply alistGet_foldSet_not_mem
  intro p hp hcontra
  have hne : alistGet src p.1 ≠ none := by
    clear hnone
    induction src with
    | nil => exact absurd hp (List.not_mem_nil p)
    | cons q rest ih =>
      obtain ⟨qa, qb⟩ := q
      rcases List.mem_cons.mp hp with h1 | h2
      · subst h1
        simp [alistGet]
      · by_cases hq : qa = p.1
        · simp [alistGet, hq]
        · simp only [alistGet, if_neg hq]
          exact ih h2
  rw [hcontra] at hne
  exact hne hnone

theorem setLeaf_existing (es : List (String × JSValue)) (s : String) (V value d w : JSValue)
    (hV : alistGet es s = some V)
    (hw : leafNewValue V value d = .ok w) :
    Settings.setLeaf es s value d = (.vMap (alistSet es s w), .ok ()) := by
  unfold Settings.setLeaf
  unfold leafNewValue at hw
  by_cases hobj : typeofObject value = true
  · simp only [hobj, if_true] at hw ⊢
    rw [hV]
    simp only [Option.getD_some]
    by_cases htr : truthy V = true
    · simp only [htr, if_true] at hw ⊢
      rw [hV]
      simp only [Option.getD_some]
      by_cases hd : truthy d = true
      · simp only [hd, if_true] at hw ⊢
        simp [hw]
      · simp only [hd, Bool.false_eq_true, if_false] at hw ⊢
        simp [hw]
    · simp only [htr, Bool.false_eq_true, if_false] at hw ⊢
      rw [alistGet_set_self]
      simp only [Option.getD_some]
      by_cases hd : truthy d = true
      · simp only [hd, if_true] at hw ⊢
        simp [hw, alistSet_set_same]
      · simp only [hd, Bool.false_eq_true, if_false] at hw ⊢
        simp [hw, alistSet_set_same]
  · simp only [hobj, Bool.false_eq_true, if_false] at hw ⊢
    rw [hV]
    simp only [Option.getD_some]
    cases hw
    rfl

theorem getAtSegs_nil (v : JSValue) : getAtSegs v [] = some v := by
  cases v <;> rfl

theorem getAtSegs_cons_some (es : List (String × JSValue)) (s : String)
    (rest : List String) (child : JSValue) (h : alistGet es s = some child) :
    getAtSegs (.vMap es) (s :: rest) = getAtSegs child rest := by
  show (match alistGet es s with | some w => getAtSegs w rest | none => none) = _
  rw [h]

theorem getAtSegs_cons_none (es : List (String × JSValue)) (s : String)
    (rest : List String) (h : alistGet es s = none) :
    getAtSegs (.vMap es) (s :: rest) = none := by
  show (match alistGet es s with | some w => getAtSegs w rest | none => none) = _
  rw [h]

theorem getAtSegs_not_map (v : JSValue) (s : String) (rest : List String)
    (hm : isMapV v = false) : getAtSegs v (s :: rest) = none := by
  cases v <;> first | rfl | simp [isMapV] at hm

theorem updateAtSegs_nil (v w : JSValue) : updateAtSegs v [] w = w := by
  cases v <;> rfl

theorem updateAtSegs_cons_map (es : List (String × JSValue)) (s : String)
    (rest : List String) (w : JSValue) :
    updateAtSegs (.vMap es) (s :: rest) w
      = .vMap (alistSet es s (updateAtSegs ((alistGet es s).getD .vUndefined) rest w)) := rfl

theorem setWalk_at : ∀ (segs : List String) (st V value d w : JSValue),
    segs ≠ [] → getAtSegs st segs = some V → isUndefined V = false →
    leafNewValue V value d = .ok w →
    Settings.setWalk value d st segs = (updateAtSegs st segs w, .ok ()) := by
  intro segs
  induction segs with
  | nil => intro st V value d w hne; exact absurd rfl hne
  | cons s rest ih =>
    intro st V value d w _ hget hu hw
    have hmap : ∃ es, st = .vMap es := by
      cases st with
      | vMap es => exact ⟨es, rfl⟩
      | vUndefined => rw [getAtSegs_not_map .vUndefined s rest rfl] at hget; cases hget
      | vNull => rw [getAtSegs_not_map .vNull s rest rfl] at hget; cases hget
      | vBool b => rw [getAtSegs_not_map (.vBool b) s rest rfl] at hget; cases hget
      | vNum n => rw [getAtSegs_not_map (.vNum n) s rest rfl] at hget; cases hget
      | vStr t => rw [getAtSegs_not_map (.vStr t) s rest rfl] at hget; cases hget
    obtain ⟨es, rfl⟩ := hmap
    cases hchild : alistGet es s with
    | none => rw [getAtSegs_cons_none es s rest hchild] at hget; cases hget
    | some child =>
      rw [getAtSegs_cons_some es s rest child hchild] at hget
      cases rest with
      | nil =>
        rw [getAtSegs_nil] at hget
        have hcV : child = V := by cases hget; rfl
        subst hcV
        have hcu2 : isUndefined ((alistGet es s).getD .vUndefined) = false := by
          rw [hchild]; simpa using hu
        show Settings.setWalk value d (.vMap es) [s] = _
        simp only [Settings.setWalk, hcu2, Bool.false_eq_true, if_false]
        rw [setLeaf_existing es s child value d w hchild hw]
        rw [updateAtSegs_cons_map, hchild]
        simp [updateAtSegs_nil]
      | cons s2 rest2 =>
        have hcu : isUndefined child = false := by
          cases hc : isUndefined child
          · rfl
          · have hceq : child = .vUndefined := by
              cases child <;> first | rfl | simp [isUndefined] at hc
            rw [hceq, getAtSegs_not_map .vUndefined s2 rest2 rfl] at hget
            cases hget
        have hcu2 : isUndefined ((alistGet es s).getD .vUndefined) = false := by
          rw [hchild]; simpa using hcu
        show Settings.setWalk value d (.vMap es) (s :: s2 :: rest2) = _
        simp only [Settings.setWalk, hcu2, hchild, Option.getD_some, hcu,
          Bool.false_eq_true, if_false]
        rw [ih child V value d w (by simp) hget hu hw]
        rw [updateAtSegs_cons_map, hchild]
        simp

theorem getAtSegs_update_append : ∀ (segs : List String) (st V w : JSValue)
    (p : List String), getAtSegs st segs = some V →
    getAtSegs (updateAtSegs st segs w) (segs ++ p) = getAtSegs w p := by
  intro segs
  induction segs with
  | nil =>
    intro st V w p _
    rw [updateAtSegs_nil]
    rfl
  | cons s rest ih =>
    intro st V w p hget
    have hmap : ∃ es, st = .vMap es := by
      cases st with
      | vMap es => exact ⟨es, rfl⟩
      | vUndefined => rw [getAtSegs_not_map .vUndefined s rest rfl] at hget; cases hget
      | vNull => rw [getAtSegs_not_map .vNull s rest rfl] at hget; cases hget
      | vBool b => rw [getAtSegs_not_map (.vBool b) s rest rfl] at hget; cases hget
      | vNum n => rw [getAtSegs_not_map (.vNum n) s rest rfl] at hget; cases hget
      | vStr t => rw [getAtSegs_not_map (.vStr t) s rest rfl] at hget; cases hget
    obtain ⟨es, rfl⟩ := hmap
    cases hchild : alistGet es s with
    | none => rw [getAtSegs_cons_none es s rest hchild] at hget; cases hget
    | some child =>
      rw [getAtSegs_cons_some es s rest child hchild] at hget
      rw [updateAtSegs_cons_map, hchild]
      simp only [Option.getD_some]
      have hstep : ((s :: rest) ++ p) = s :: (rest ++ p) := rfl
      rw [hstep, getAtSegs_cons_some _ s (rest ++ p) (updateAtSegs child rest w)
        (alistGet_set_self es s _)]
      exact ih child V w p hget

theorem setInternal_str_resolved (storage : JSValue) (sk : String)
    (value d : JSValue) (seg : String) (segs2 : List String)
    (hsk : scanSegs sk.data = seg :: segs2) :
    Settings._set storage (.vStr sk) value d
      = Settings.setWalk value d storage (seg :: segs2) := by
  have hne : ¬(sk = "") := by
    intro h
    subst h
    simp [scanSegs, scanAux] at hsk
  unfold Settings._set
  simp only [typeofObject, Bool.false_eq_true, if_false, jsEqEmptyStr, hne, hsk]
  simp

theorem set_of_setInternal_ok (storage key value d r : JSValue)
    (h : Settings._set storage key value d = (r, .ok ())) :
    Settings.set storage key value d
      = (r, .ok [Settings.setEventOf key value d]) := by
  simp [Settings.set, h]

theorem set_default_maps (st d : JSValue) (sk seg : String) (segs2 : List String)
    (Ves Des : List (String × JSValue))
    (hsk : scanSegs sk.data = seg :: segs2)
    (hV : getAtSegs st (seg :: segs2) = some (.vMap Ves))
    (hd : truthy d = true)
    (hnd : (Ves.map Prod.fst).Nodup) :
    Settings.set st (.vStr sk) (.vMap Des) d
      = (updateAtSegs st (seg :: segs2) (.vMap (assignInto Des (.vMap Ves))),
         .ok [Settings.setEventOf (.vStr sk) (.vMap Des) d]) ∧
    ∀ (p : List String) (w' : JSValue), getAtSegs (.vMap Ves) p = some w' →
      isMapV w' = false →
      getAtSegs (Settings.set st (.vStr sk) (.vMap Des) d).1 ((seg :: segs2) ++ p)
        = some w' := by
  have hw : leafNewValue (.vMap Ves) (.vMap Des) d
      = .ok (.vMap (assignInto Des (.vMap Ves))) := by
    have htv : truthy (.vMap Ves) = true := rfl
    simp [leafNewValue, typeofObject, hd, htv, jsAssign]
  have hres : Settings._set st (.vStr sk) (.vMap Des) d
      = (updateAtSegs st (seg :: segs2) (.vMap (assignInto Des (.vMap Ves))), .ok ()) := by
    rw [setInternal_str_resolved st sk (.vMap Des) d seg segs2 hsk]
    exact setWalk_at (seg :: segs2) st (.vMap Ves) (.vMap Des) d _ (by simp) hV rfl hw
  have hpub := set_of_setInternal_ok st (.vStr sk) (.vMap Des) d _ hres
  refine ⟨hpub, ?_⟩
  intro p w' hp hm
  simp only [hpub]
  cases p with
  | nil =>
    rw [getAtSegs_nil] at hp
    cases hp
    simp [isMapV] at hm
  | cons k p2 =>
    cases hc : alistGet Ves k with
    | none => rw [getAtSegs_cons_none Ves k p2 hc] at hp; cases hp
    | some c =>
      rw [getAtSegs_cons_some Ves k p2 c hc] at hp
      rw [getAtSegs_update_append (seg :: segs2) st (.vMap Ves) _ (k :: p2) hV]
      rw [getAtSegs_cons_some _ k p2 c (alistGet_assignInto_of_src Ves k c hnd hc Des)]
      exact hp

theorem set_default_scalar (st D d : JSValue) (sk seg : String) (segs2 : List String)
    (V : JSValue)
    (hsk : scanSegs sk.data = seg :: segs2)
    (hV : getAtSegs st (seg :: segs2) = some V)
    (hu : isUndefined V = false)
    (hobj : typeofObject D = false)
    (hd : truthy d = true) :
    Settings.set st (.vStr sk) D d
      = (updateAtSegs st (seg :: segs2) V, .ok [Settings.setEventOf (.vStr sk) D d]) ∧
    getAtSegs (Settings.set st (.vStr sk) D d).1 (seg :: segs2) = some V := by
  have hw : leafNewValue V D d = .ok V := by
    simp [leafNewValue, hobj, hd, hu]
  have hres : Settings._set st (.vStr sk) D d
      = (updateAtSegs st (seg :: segs2) V, .ok ()) := by
    rw [setInternal_str_resolved st sk D d seg segs2 hsk]
    exact setWalk_at (seg :: segs2) st V D d V (by simp) hV hu hw
  have hpub := set_of_setInternal_ok st (.vStr sk) D d _ hres
  refine ⟨hpub, ?_⟩
  simp only [hpub]
  have := getAtSegs_update_append (seg :: segs2) st V V [] hV
  rw [List.append_nil] at this
  rw [this, getAtSegs_nil]

theorem set_plain_maps (st d : JSValue) (sk seg : String) (segs2 : List String)
    (Ves Des : List (String × JSValue))
    (hsk : scanSegs sk.data = seg :: segs2)
    (hV : getAtSegs st (seg :: segs2) = some (.vMap Ves))
    (hd : truthy d = false)
    (hnd : (Des.map Prod.fst).Nodup) :
    Settings.set st (.vStr sk) (.vMap Des) d
      = (updateAtSegs st (seg :: segs2) (.vMap (assignInto Ves (.vMap Des))),
         .ok [Settings.setEventOf (.vStr sk) (.vMap Des) d]) ∧
    getAtSegs (Settings.set st (.vStr sk) (.vMap Des) d).1 (seg :: segs2)
        = some (.vMap (assignInto Ves (.vMap Des))) ∧
    (∀ (p : List String) (w' : JSValue), getAtSegs (.vMap Des) p = some w' →
      isMapV w' = false →
      getAtSegs (Settings.set st (.vStr sk) (.vMap Des) d).1 ((seg :: segs2) ++ p)
        = some w') ∧
    (∀ k : String, alistGet Des k = none →
      alistGet (assignInto Ves (.vMap Des)) k = alistGet Ves k) := by
  have hw : leafNewValue (.vMap Ves) (.vMap Des) d
      = .ok (.vMap (assignInto Ves (.vMap Des))) := by
    have htv : truthy (.vMap Ves) = true := rfl
    simp [leafNewValue, typeofObject, hd, htv, jsAssign]
  have hres : Settings._set st (.vStr sk) (.vMap Des) d
      = (updateAtSegs st (seg :: segs2) (.vMap (assignInto Ves (.vMap Des))), .ok ()) := by
    rw [setInternal_str_resolved st sk (.vMap Des) d seg segs2 hsk]
    exact setWalk_at (seg :: segs2) st (.vMap Ves) (.vMap Des) d _ (by simp) hV rfl hw
  have hpub := set_of_setInternal_ok st (.vStr sk) (.vMap Des) d _ hres
  refine ⟨hpub, ?_, ?_, ?_⟩
  · simp only [hpub]
    have := getAtSegs_update_append (seg :: segs2) st (.vMap Ves)
      (.vMap (assignInto Ves (.vMap Des))) [] hV
    rw [List.append_nil] at this
    rw [this, getAtSegs_nil]
  · intro p w' hp hm
    simp only [hpub]
    cases p with
    | nil =>
      rw [getAtSegs_nil] at hp
      cases hp
      simp [isMapV] at hm
    | cons k p2 =>
      cases hc : alistGet Des k with
      | none => rw [getAtSegs_cons_none Des k p2 hc] at hp; cases hp
      | some c =>
        rw [getAtSegs_cons_some Des k p2 c hc] at hp
        rw [getAtSegs_update_append (seg :: segs2) st (.vMap Ves) _ (k :: p2) hV]
        rw [getAtSegs_cons_some _ k p2 c (alistGet_assignInto_of_src Des k c hnd hc Ves)]
        exact hp
  · intro k hk
    exact alistGet_assignInto_of_none Des Ves k hk

theorem set_plain_scalar (st D d : JSValue) (sk seg : String) (segs2 : List String)
    (V : JSValue)
    (hsk : scanSegs sk.data = seg :: segs2)
    (hV : getAtSegs st (seg :: segs2) = some V)
    (hu : isUndefined V = false)
    (hobj : typeofObject D = false)
    (hd : truthy d = false) :
    Settings.set st (.vStr sk) D d
      = (updateAtSegs st (seg :: segs2) D, .ok [Settings.setEventOf (.vStr sk) D d]) ∧
    getAtSegs (Settings.set st (.vStr sk) D d).1 (seg :: segs2) = some D := by
  have hw : leafNewValue V D d = .ok D := by
    simp [leafNewValue, hobj, hd]
  have hres : Settings._set st (.vStr sk) D d
      = (updateAtSegs st (seg :: segs2) D, .ok ()) := by
    rw [setInternal_str_resolved st sk D d seg segs2 hsk]
    exact setWalk_at (seg :: segs2) st V D d D (by simp) hV hu hw
  have hpub := set_of_setInternal_ok st (.vStr sk) D d _ hres
  refine ⟨hpub, ?_⟩
  simp only [hpub]
  have := getAtSegs_update_append (seg :: segs2) st V D [] hV
  rw [List.append_nil] at this
  rw [this, getAtSegs_nil]

/-- C3 counterexample: the claim says `set(K, D, isDefault=true)` never
changes any leaf already present in the existing value V.  With the scalar
leaf V = 5 stored at "k" and the incoming MAP D = {x: 1}, the default-set
replaces the leaf: `Object.assign(D, 5)` copies nothing from the number, so
the stored value becomes {x: 1} and the leaf 5 is gone. -/
theorem claim_C3_counterexample :
    getAtSegs (.vMap [("k", .vNum 5)]) ["k"] = some (.vNum 5) ∧
    getAtSegs (Settings.set (.vMap [("k", .vNum 5)]) (.vStr "k")
        (.vMap [("x", .vNum 1)]) (.vBool true)).1 ["k"]
      = some (.vMap [("x", .vNum 1)]) := ⟨rfl, rfl⟩

/-- C3, amended: for an existing value V at a resolvable path K (V not
undefined), the default-merge law holds with the existing/incoming MAP
restriction: (1) if V and D are both MAPs, `set(K, D, isDefault=true)`
leaves every leaf of V unchanged (and emits its event); (2) if D is a
SCALAR, default-set keeps V wholly unchanged; (3) if V and D are both MAPs,
`set(K, D, isDefault=false)` stores `Object.assign(V, D)`: every leaf of D
overwrites, while top-level keys of V absent from D are preserved (one level
of sub-key preservation); (4) if D is a SCALAR, plain set stores D.  The
unrestricted claim fails when V is a scalar (or falsy) and D a MAP — the
counterexample. -/
theorem claim_C3_amended (st V D d : JSValue) (sk seg : String) (segs2 : List String)
    (hsk : scanSegs sk.data = seg :: segs2)
    (hV : getAtSegs st (seg :: segs2) = some V)
    (hu : isUndefined V = false) :
    (∀ (Ves Des : List (String × JSValue)), V = .vMap Ves → D = .vMap Des →
      truthy d = true → (Ves.map Prod.fst).Nodup →
      (Settings.set st (.vStr sk) D d).2
          = .ok [Settings.setEventOf (.vStr sk) D d] ∧
      ∀ (p : List String) (w' : JSValue), getAtSegs V p = some w' →
        isMapV w' = false →
        getAtSegs (Settings.set st (.vStr sk) D d).1 ((seg :: segs2) ++ p) = some w') ∧
    (typeofObject D = false → truthy d = true →
      getAtSegs (Settings.set st (.vStr sk) D d).1 (seg :: segs2) = some V) ∧
    (∀ (Ves Des : List (String × JSValue)), V = .vMap Ves → D = .vMap Des →
      truthy d = false → (Des.map Prod.fst).Nodup →
      getAtSegs (Settings.set st (.vStr sk) D d).1 (seg :: segs2)
          = some (.vMap (assignInto Ves (.vMap Des))) ∧
      (∀ (p : List String) (w' : JSValue), getAtSegs D p = some w' →
        isMapV w' = false →
        getAtSegs (Settings.set st (.vStr sk) D d).1 ((seg :: segs2) ++ p) = some w') ∧
      (∀ k : String, alistGet Des k = none →
        alistGet (assignInto Ves (.vMap Des)) k = alistGet Ves k)) ∧
    (typeofObject D = false → truthy d = false →
      getAtSegs (Settings.set st (.vStr sk) D d).1 (seg :: segs2) = some D) := by
  refine ⟨?_, ?_, ?_, ?_⟩
  · intro Ves Des hVe hDe hd hnd
    subst hVe
    subst hDe
    have h := set_default_maps st d sk seg segs2 Ves Des hsk hV hd hnd
    exact ⟨by rw [h.1], h.2⟩
  · intro hobj hd
    exact (set_default_scalar st D d sk seg segs2 V hsk hV hu hobj hd).2
  · intro Ves Des hVe hDe hd hnd
    subst hVe
    subst hDe
    have h := set_plain_maps st d sk seg segs2 Ves Des hsk hV hd hnd
    exact ⟨h.2.1, h.2.2.1, h.2.2.2⟩
  · intro hobj hd
    exact (set_plain_scalar st D d sk seg segs2 V hsk hV hu hobj hd).2

/-- Witness for the amended C3, reproducing the README's default-merge
scenario: with `{cat: {fuzzy: true, ears: "soft"}}` stored, the call
`set("cat", {fuzzy: false}, true)` leaves the existing leaf
`cat.fuzzy = true` unchanged. -/
theorem claim_C3_amended_witness :
    getAtSegs (Settings.set
        (.vMap [("cat", .vMap [("fuzzy", .vBool true), ("ears", .vStr "soft")])])
        (.vStr "cat") (.vMap [("fuzzy", .vBool false)]) (.vBool true)).1
      (["cat"] ++ ["fuzzy"]) = some (.vBool true) :=
  ((claim_C3_amended
      (.vMap [("cat", .vMap [("fuzzy", .vBool true), ("ears", .vStr "soft")])])
      (.vMap [("fuzzy", .vBool true), ("ears", .vStr "soft")])
      (.vMap [("fuzzy", .vBool false)]) (.vBool true) "cat" "cat" []
      rfl rfl rfl).1
    [("fuzzy", .vBool true), ("ears", .vStr "soft")] [("fuzzy", .vBool false)]
    rfl rfl rfl (by decide)).2
    ["fuzzy"] (.vBool true) rfl rfl
